import Mathlib

/-!
Shallow embedding of the synchronization-hazard detection engine
(layers/synchronization_validation.cpp): per-resource access state,
hazard detection, barrier application, the stage/access scope
calculator, and the copy-command validator orchestration.

Bitmasks (VkPipelineStageFlags, VkAccessFlags, SyncStageAccessFlags) are
modelled as natural numbers combined with the bitwise operators; the
machine complement `~m` of the source is rendered as XOR against the
all-ones mask of the corresponding width.  The companion header of the
source file is not part of the sources; every definition taken from it
rather than from the .cpp file is marked `Modelled from the spec:` in
its doc comment.
-/

set_option linter.unusedVariables false

/-- Hazard kinds reported by the engine (enum SyncHazard). -/
inductive SyncHazard where
  | NONE
  | READ_AFTER_WRITE
  | WRITE_AFTER_READ
  | WRITE_AFTER_WRITE
deriving DecidableEq, Repr

/-- Mapping from hazard kind to its stable identifier string
(function string_SyncHazardVUID of the source). -/
def string_SyncHazardVUID : SyncHazard → String
  | SyncHazard.NONE => "SYNC-NONE"
  | SyncHazard.READ_AFTER_WRITE => "SYNC-HAZARD-READ_AFTER_WRITE"
  | SyncHazard.WRITE_AFTER_READ => "SYNC-HAZARD-WRITE_AFTER_READ"
  | SyncHazard.WRITE_AFTER_WRITE => "SYNC-HAZARD-WRITE_AFTER_WRITE"

/-- Mapping from hazard kind to its human-readable label
(function string_SyncHazard of the source; note that the source
returns the string "NONR" for the NONE kind). -/
def string_SyncHazard : SyncHazard → String
  | SyncHazard.NONE => "NONR"
  | SyncHazard.READ_AFTER_WRITE => "READ_AFTER_WRITE"
  | SyncHazard.WRITE_AFTER_READ => "WRITE_AFTER_READ"
  | SyncHazard.WRITE_AFTER_WRITE => "WRITE_AFTER_WRITE"

/-- Result of a hazard query (struct HazardResult).  A default
constructed result carries the NONE kind and tag 0; `Set` assigns both
fields at once, which is folded into the record literals below. -/
structure HazardResult where
  hazard : SyncHazard := SyncHazard.NONE
  tag : Nat := 0
deriving DecidableEq, Repr

/-- Modelled from the spec: a stage-access usage index carries its
read-versus-write classification, its single StageAccessFlags bit and
its single pipeline-stage bit.  In the source these three facets are
recovered from the generated usage tables of the companion header
(IsRead, FlagBit, PipelineStageBit), which are not in the sources. -/
structure SyncStageAccessIndex where
  isRead : Bool
  flagBit : Nat
  stageBit : Nat
deriving DecidableEq, Repr

/-- Modelled from the spec: FlagBit returns the StageAccessFlags bit of
a usage index. -/
def FlagBit (u : SyncStageAccessIndex) : Nat := u.flagBit

/-- Modelled from the spec: PipelineStageBit returns the single
pipeline-stage bit of a usage index. -/
def PipelineStageBit (u : SyncStageAccessIndex) : Nat := u.stageBit

/-- Modelled from the spec: IsRead classifies a usage as a read-class
access (in the source this is a membership test of the usage bit in the
generated read mask). -/
def IsRead (u : SyncStageAccessIndex) : Bool := u.isRead

/-- One outstanding read, keyed by pipeline stage (struct ReadState of
the companion header): the single stage bit, the granted barrier scope
accumulated so far, and the usage tag of the read. -/
structure ReadState where
  stage : Nat
  barriers : Nat
  tag : Nat
deriving DecidableEq, Repr

/-- All-ones SyncStageAccessFlags mask (64-bit flag width). -/
def SYNC_FLAGS_FULL : Nat := 2 ^ 64 - 1

/-- All-ones VkPipelineStageFlags mask (32-bit flag width). -/
def STAGE_FLAGS_FULL : Nat := 2 ^ 32 - 1

/-- Per-resource access state (struct ResourceAccessState).  The fixed
array last_reads together with last_read_count of the source is
modelled as the list of live read records; the defaults give the
freshly constructed state, whose write_barriers starts all-ones so that
a never-written resource produces no hazard. -/
structure ResourceAccessState where
  last_reads : List ReadState := []
  last_read_stages : Nat := 0
  write_barriers : Nat := SYNC_FLAGS_FULL
  write_tag : Nat := 0
  last_write : Nat := 0
deriving DecidableEq, Repr

/-- Modelled from the spec: IsWriteHazard holds when the usage bit is
not covered by the granted write barrier scope (source form
`usage & ~write_barriers`, complement taken at flag width). -/
def ResourceAccessState.IsWriteHazard (s : ResourceAccessState) (usage : Nat) : Bool :=
  usage &&& (SYNC_FLAGS_FULL ^^^ s.write_barriers) != 0

/-- Modelled from the spec: IsReadHazard holds when the usage stage is
not covered by the granted barrier scope of the read record (source
form `stage & ~read_access.barriers`, complement at stage width). -/
def IsReadHazard (usage_stage : Nat) (read_access : ReadState) : Bool :=
  usage_stage &&& (STAGE_FLAGS_FULL ^^^ read_access.barriers) != 0

/-- The write-after-read scan of DetectHazard: walk the live read
records in stored order and stop at the first one that is a read
hazard for the usage stage (the for loop with break of the source). -/
def scanReadsForWAR (usage_stage : Nat) : List ReadState → HazardResult
  | [] => {}
  | read :: rest =>
    if IsReadHazard usage_stage read then
      { hazard := SyncHazard.WRITE_AFTER_READ, tag := read.tag }
    else scanReadsForWAR usage_stage rest

/-- ResourceAccessState::DetectHazard of the source: read-after-write
for read usages, then write-after-write when a prior write exists, then
the write-after-read scan over the read records. -/
def ResourceAccessState.DetectHazard (s : ResourceAccessState)
    (usage_index : SyncStageAccessIndex) : HazardResult :=
  let usage := FlagBit usage_index
  if IsRead usage_index && s.IsWriteHazard usage then
    { hazard := SyncHazard.READ_AFTER_WRITE, tag := s.write_tag }
  else if s.last_write != 0 && s.IsWriteHazard usage then
    { hazard := SyncHazard.WRITE_AFTER_WRITE, tag := s.write_tag }
  else
    scanReadsForWAR (PipelineStageBit usage_index) s.last_reads

/-- The in-place update of the read record matching the usage stage
inside ResourceAccessState::Update: the first record whose stage equals
the usage stage gets its barriers cleared and its tag overwritten (the
source loop breaks at the first match). -/
def updateReadAtStage (usage_stage tagv : Nat) : List ReadState → List ReadState
  | [] => []
  | access :: rest =>
    if access.stage == usage_stage then
      { access with barriers := 0, tag := tagv } :: rest
    else access :: updateReadAtStage usage_stage tagv rest

/-- ResourceAccessState::Update of the source: a read usage either
refreshes the record of its stage or appends a new record and extends
last_read_stages; a write usage clears all read records, clears the
write barrier scope and records the write bit and tag. -/
def ResourceAccessState.Update (s : ResourceAccessState)
    (usage_index : SyncStageAccessIndex) (tagv : Nat) : ResourceAccessState :=
  if IsRead usage_index then
    let usage_stage := PipelineStageBit usage_index
    if usage_stage &&& s.last_read_stages != 0 then
      { s with last_reads := updateReadAtStage usage_stage tagv s.last_reads }
    else
      { s with
          last_reads := s.last_reads ++ [{ stage := usage_stage, barriers := 0, tag := tagv }],
          last_read_stages := s.last_read_stages ||| usage_stage }
  else
    { s with
        last_reads := [], last_read_stages := 0,
        write_barriers := 0, write_tag := tagv,
        last_write := FlagBit usage_index }

/-- ResourceAccessState::ApplyExecutionBarrier of the source: every
read record whose stage or already-granted scope intersects the source
stage mask has the destination stage mask ORed into its scope. -/
def ResourceAccessState.ApplyExecutionBarrier (s : ResourceAccessState)
    (srcStageMask dstStageMask : Nat) : ResourceAccessState :=
  { s with
      last_reads := s.last_reads.map fun access =>
        if srcStageMask &&& (access.stage ||| access.barriers) != 0 then
          { access with barriers := access.barriers ||| dstStageMask }
        else access }

/-- ResourceAccessState::ApplyMemoryBarrier of the source: when the
source scope intersects the last write or the already-granted write
scope, the destination scope is ORed into the write barrier scope. -/
def ResourceAccessState.ApplyMemoryBarrier (s : ResourceAccessState)
    (src_scope dst_scope : Nat) : ResourceAccessState :=
  if src_scope &&& (s.last_write ||| s.write_barriers) != 0 then
    { s with write_barriers := s.write_barriers ||| dst_scope }
  else s

/-- AccessScopeImpl of the source: walk the table of single-bit keys in
stored (ascending) order, union the value of every key present in the
flag mask, and break as soon as the flag mask is smaller than the
current key. -/
def AccessScopeImpl (flag_mask : Nat) : List (Nat × Nat) → Nat
  | [] => 0
  | bit_scope :: rest =>
    if flag_mask < bit_scope.1 then 0
    else
      (if flag_mask &&& bit_scope.1 != 0 then bit_scope.2 else 0) |||
        AccessScopeImpl flag_mask rest

/-- Modelled from the spec: the naive full scan over the same table,
with the same membership-test-and-union logic but no early break. -/
def AccessScopeNaive (flag_mask : Nat) : List (Nat × Nat) → Nat
  | [] => 0
  | bit_scope :: rest =>
    (if flag_mask &&& bit_scope.1 != 0 then bit_scope.2 else 0) |||
      AccessScopeNaive flag_mask rest

/-- SyncStageAccess::AccessScopeByStage of the source; the generated
table syncStageAccessMaskByStageBit lives in the companion header and
is therefore passed as a parameter. -/
def AccessScopeByStage (stageTable : List (Nat × Nat)) (stages : Nat) : Nat :=
  AccessScopeImpl stages stageTable

/-- SyncStageAccess::AccessScopeByAccess of the source; the generated
table syncStageAccessMaskByAccessBit is passed as a parameter. -/
def AccessScopeByAccess (accessTable : List (Nat × Nat)) (accesses : Nat) : Nat :=
  AccessScopeImpl accesses accessTable

/-- SyncStageAccess::AccessScope of the source: the intersection of the
per-stage scope and the per-access scope. -/
def AccessScope (stageTable accessTable : List (Nat × Nat))
    (stages accesses : Nat) : Nat :=
  AccessScopeByStage stageTable stages &&& AccessScopeByAccess accessTable accesses

/-- Modelled from the spec: the AccessScope overload of the companion
header that narrows an already-computed stage scope by an access mask
(used by the barrier appliers of the source). -/
def AccessScopeFromStageScope (accessTable : List (Nat × Nat))
    (stage_scope accesses : Nat) : Nat :=
  stage_scope &&& AccessScopeByAccess accessTable accesses

/-- Per-command-buffer registry mapping a resource identity (VkBuffer
handle, modelled as Nat) to its access state (class
ResourceAccessTracker of the companion header). -/
structure ResourceAccessTracker where
  map : List (Nat × ResourceAccessState)
deriving DecidableEq, Repr

/-- Modelled from the spec: the read-only accessor of the tracker
(GetIfPresent, the const Get and GetNoInsert of the source): a lookup
that never creates an entry. -/
def ResourceAccessTracker.Get (t : ResourceAccessTracker) (buffer : Nat) :
    Option ResourceAccessState :=
  t.map.lookup buffer

/-- In-place mutation of the entry of one resource, when present (the
effect of writing through the pointer returned by GetNoInsert); an
absent resource leaves the map unchanged. -/
def ResourceAccessTracker.applyAt (t : ResourceAccessTracker) (buffer : Nat)
    (f : ResourceAccessState → ResourceAccessState) : ResourceAccessTracker :=
  ⟨t.map.map fun kv => if kv.1 == buffer then (kv.1, f kv.2) else kv⟩

/-- VkBufferCopy region (offsets and size); the present whole-resource
engine receives but ignores it. -/
structure VkBufferCopy where
  srcOffset : Nat
  dstOffset : Nat
  size : Nat
deriving DecidableEq, Repr

/-- VkMemoryBarrier: global-barrier access masks. -/
structure VkMemoryBarrier where
  srcAccessMask : Nat
  dstAccessMask : Nat
deriving DecidableEq, Repr

/-- VkBufferMemoryBarrier: per-buffer barrier access masks and the
buffer they name. -/
structure VkBufferMemoryBarrier where
  srcAccessMask : Nat
  dstAccessMask : Nat
  buffer : Nat
deriving DecidableEq, Repr

/-- SyncValidator::DetectHazard of the source: look the buffer up in
the tracker without creating an entry; an absent resource yields the
default (NONE) result.  The method takes the tracker through a const
pointer, rendered here by returning the tracker alongside the result:
the returned tracker is the input one, no entry is synthesized. -/
def SyncValidator.DetectHazard (tracker : ResourceAccessTracker)
    (current_usage : SyncStageAccessIndex) (buffer : Nat) (region : VkBufferCopy) :
    HazardResult × ResourceAccessTracker :=
  match tracker.Get buffer with
  | some access_state => (access_state.DetectHazard current_usage, tracker)
  | none => ({}, tracker)

/-- Modelled from the spec: the transfer-stage transfer-read usage
index (generated enumerator SYNC_TRANSFER_TRANSFER_READ; the transfer
stage is pipeline-stage bit 12). -/
def SYNC_TRANSFER_TRANSFER_READ : SyncStageAccessIndex :=
  { isRead := true, flagBit := 2 ^ 0, stageBit := 2 ^ 12 }

/-- Modelled from the spec: the transfer-stage transfer-write usage
index (generated enumerator SYNC_TRANSFER_TRANSFER_WRITE). -/
def SYNC_TRANSFER_TRANSFER_WRITE : SyncStageAccessIndex :=
  { isRead := false, flagBit := 2 ^ 1, stageBit := 2 ^ 12 }

/-- One report emitted to the logging collaborator: offending buffer,
stable identifier, hazard label and region index (the arguments of the
log_msg call of the source). -/
structure CopyReport where
  buffer : Nat
  vuid : String
  hazardName : String
  region : Nat
deriving DecidableEq, Repr

/-- The region loop of SyncValidator::PreCallValidateCmdCopyBuffer:
for each region in order, check the source buffer for a transfer-read
hazard; only if none, check the destination buffer for a transfer-write
hazard; a reported hazard sets the skip flag, and the loop breaks once
skip is set.  Modelled from the spec: the logging collaborator is
external, and the validate contract returns true when a hazard is
found, so a reported hazard sets skip. -/
def validateCopyRegions (tracker : ResourceAccessTracker)
    (srcBuffer dstBuffer regionIdx : Nat) :
    List VkBufferCopy → Bool × List CopyReport
  | [] => (false, [])
  | region :: rest =>
    let hz := SyncValidator.DetectHazard tracker SYNC_TRANSFER_TRANSFER_READ srcBuffer region
    if hz.1.hazard != SyncHazard.NONE then
      (true, [{ buffer := srcBuffer, vuid := string_SyncHazardVUID hz.1.hazard,
                hazardName := string_SyncHazard hz.1.hazard, region := regionIdx }])
    else
      let hz2 := SyncValidator.DetectHazard hz.2 SYNC_TRANSFER_TRANSFER_WRITE dstBuffer region
      if hz2.1.hazard != SyncHazard.NONE then
        (true, [{ buffer := dstBuffer, vuid := string_SyncHazardVUID hz2.1.hazard,
                  hazardName := string_SyncHazard hz2.1.hazard, region := regionIdx }])
      else validateCopyRegions hz2.2 srcBuffer dstBuffer (regionIdx + 1) rest

/-- The validator object: the per-command-buffer tracker registry and
the monotonic usage-tag source (the fields the modelled calls use). -/
structure SyncValidator where
  access_tracker_map : List (Nat × ResourceAccessTracker)
  tag : Nat
deriving DecidableEq, Repr

/-- Modelled from the spec: GetAccessTracker (const form) returns the
tracker of a command buffer when one exists. -/
def SyncValidator.GetAccessTracker (v : SyncValidator) (command_buffer : Nat) :
    Option ResourceAccessTracker :=
  v.access_tracker_map.lookup command_buffer

/-- SyncValidator::PreCallValidateCmdCopyBuffer of the source: with no
tracker there are no previous accesses hence no hazards; otherwise run
the region loop. -/
def SyncValidator.PreCallValidateCmdCopyBuffer (v : SyncValidator)
    (commandBuffer srcBuffer dstBuffer : Nat) (regions : List VkBufferCopy) :
    Bool × List CopyReport :=
  match v.GetAccessTracker commandBuffer with
  | some tracker => validateCopyRegions tracker srcBuffer dstBuffer 0 regions
  | none => (false, [])

/-- SyncValidator::ApplyBufferBarriers of the source: for each buffer
barrier in order, the named buffer (when tracked; an untracked buffer
is skipped) gets a memory barrier whose scopes narrow the precomputed
stage scopes by the barrier access masks. -/
def SyncValidator.ApplyBufferBarriers (accessTable : List (Nat × Nat))
    (tracker : ResourceAccessTracker) (src_stage_scope dst_stage_scope : Nat)
    (barriers : List VkBufferMemoryBarrier) : ResourceAccessTracker :=
  barriers.foldl
    (fun t barrier =>
      t.applyAt barrier.buffer fun access_state =>
        access_state.ApplyMemoryBarrier
          (AccessScopeFromStageScope accessTable src_stage_scope barrier.srcAccessMask)
          (AccessScopeFromStageScope accessTable dst_stage_scope barrier.dstAccessMask))
    tracker

/-- SyncValidator::ApplyGlobalBarriers of the source: precompute the
scope pair of every memory barrier, then for every tracked state apply
the execution barrier followed by each memory-barrier scope pair in
order. -/
def SyncValidator.ApplyGlobalBarriers (accessTable : List (Nat × Nat))
    (tracker : ResourceAccessTracker) (srcStageMask dstStageMask : Nat)
    (src_stage_scope dst_stage_scope : Nat)
    (memoryBarriers : List VkMemoryBarrier) : ResourceAccessTracker :=
  let barrier_scope := memoryBarriers.map fun barrier =>
    (AccessScopeFromStageScope accessTable src_stage_scope barrier.srcAccessMask,
     AccessScopeFromStageScope accessTable dst_stage_scope barrier.dstAccessMask)
  ⟨tracker.map.map fun tracked =>
    (tracked.1,
     barrier_scope.foldl (fun s scope => s.ApplyMemoryBarrier scope.1 scope.2)
       (tracked.2.ApplyExecutionBarrier srcStageMask dstStageMask))⟩

/-! Bitmask helper lemmas -/

/-- Absorption: intersecting a mask with any superset by OR returns the
mask. -/
theorem land_lor_absorb (a b : Nat) : a &&& (a ||| b) = a := by
  apply Nat.eq_of_testBit_eq
  intro i
  simp only [Nat.testBit_and, Nat.testBit_or]
  cases a.testBit i <;> simp

/-- Absorption in the other operand order. -/
theorem land_lor_absorb_right (a b : Nat) : a &&& (b ||| a) = a := by
  apply Nat.eq_of_testBit_eq
  intro i
  simp only [Nat.testBit_and, Nat.testBit_or]
  cases a.testBit i <;> simp

/-- Mask inclusion, stated as AND-equality, is transitive. -/
theorem land_subset_trans {a b c : Nat} (hab : a &&& b = a) (hbc : b &&& c = b) :
    a &&& c = a := by
  calc a &&& c = (a &&& b) &&& c := by rw [hab]
    _ = a &&& (b &&& c) := Nat.and_assoc a b c
    _ = a &&& b := by rw [hbc]
    _ = a := hab

/-- A bit set in a mask below 2 ^ w sits below position w. -/
theorem testBit_true_lt_width {m w i : Nat} (hm : m < 2 ^ w)
    (hbit : m.testBit i = true) : i < w := by
  by_contra hge
  have hw : 2 ^ w ≤ 2 ^ i := Nat.pow_le_pow_right (by omega) (by omega)
  have : m.testBit i = false := Nat.testBit_lt_two_pow (lt_of_lt_of_le hm hw)
  simp [this] at hbit

/-- A mask included in m does not meet the width-w complement of m. -/
theorem land_compl_of_subset {b m w : Nat} (hsub : b &&& m = b) (hm : m < 2 ^ w) :
    b &&& ((2 ^ w - 1) ^^^ m) = 0 := by
  apply Nat.eq_of_testBit_eq
  intro i
  simp only [Nat.testBit_and, Nat.testBit_xor, Nat.testBit_two_pow_sub_one,
    Nat.zero_testBit, Bool.and_eq_false_iff]
  cases hb : b.testBit i with
  | false => left; rfl
  | true =>
    right
    have hmb : m.testBit i = true := by
      have := congrArg (fun x => x.testBit i) hsub
      simpa [Nat.testBit_and, hb] using this
    have hiw : i < w := testBit_true_lt_width hm hmb
    simp [hmb, hiw]

/-- Two single-bit masks that intersect are the same bit. -/
theorem two_pow_land_ne_zero {i j : Nat} (h : 2 ^ i &&& 2 ^ j ≠ 0) : i = j := by
  by_contra hne
  apply h
  apply Nat.eq_of_testBit_eq
  intro k
  simp only [Nat.testBit_and, Nat.testBit_two_pow, Nat.zero_testBit]
  by_cases hik : i = k
  · subst hik
    have hji : ¬j = i := fun hji => hne hji.symm
    simp [hji]
  · simp [hik]

/-- A flag mask strictly below a single-bit key misses that key. -/
theorem land_two_pow_of_lt {x j : Nat} (h : x < 2 ^ j) : x &&& 2 ^ j = 0 := by
  apply Nat.eq_of_testBit_eq
  intro k
  simp only [Nat.testBit_and, Nat.testBit_two_pow, Nat.zero_testBit]
  by_cases hjk : j = k
  · subst hjk
    simp [Nat.testBit_lt_two_pow h]
  · simp [hjk]

/-! Hazard-kind string tables (claim C4) -/

/-- C4: evaluation of the two fixed hazard-kind string tables.  The
stable identifiers match the specified table for all four kinds, and
the human labels match for the three true hazards; for the NONE kind,
however, the code returns the label "NONR" and not the specified
"NONE". -/
theorem string_tables_eval :
    string_SyncHazardVUID SyncHazard.NONE = "SYNC-NONE" ∧
    string_SyncHazardVUID SyncHazard.READ_AFTER_WRITE = "SYNC-HAZARD-READ_AFTER_WRITE" ∧
    string_SyncHazardVUID SyncHazard.WRITE_AFTER_READ = "SYNC-HAZARD-WRITE_AFTER_READ" ∧
    string_SyncHazardVUID SyncHazard.WRITE_AFTER_WRITE = "SYNC-HAZARD-WRITE_AFTER_WRITE" ∧
    string_SyncHazard SyncHazard.READ_AFTER_WRITE = "READ_AFTER_WRITE" ∧
    string_SyncHazard SyncHazard.WRITE_AFTER_READ = "WRITE_AFTER_READ" ∧
    string_SyncHazard SyncHazard.WRITE_AFTER_WRITE = "WRITE_AFTER_WRITE" ∧
    string_SyncHazard SyncHazard.NONE = "NONR" ∧
    string_SyncHazard SyncHazard.NONE ≠ "NONE" := by
  refine ⟨rfl, rfl, rfl, rfl, rfl, rfl, rfl, rfl, ?_⟩
  intro h
  simp [string_SyncHazard] at h

/-! Absent-resource hazard query (claim C9) -/

/-- C9: a hazard query through the validator for a resource the tracker
has never seen returns the default NONE result and hands back the
tracker with its entry map unchanged (no entry is synthesized). -/
theorem detectHazard_absent_resource (tracker : ResourceAccessTracker)
    (u : SyncStageAccessIndex) (buffer : Nat) (region : VkBufferCopy)
    (h : tracker.Get buffer = none) :
    SyncValidator.DetectHazard tracker u buffer region =
      ({ hazard := SyncHazard.NONE, tag := 0 }, tracker) := by
  simp [SyncValidator.DetectHazard, h]

/-- Closed witness for detectHazard_absent_resource: a tracker holding
only buffer 5 is queried for buffer 7. -/
theorem detectHazard_absent_resource_witness :
    SyncValidator.DetectHazard ⟨[(5, {})]⟩ SYNC_TRANSFER_TRANSFER_READ 7 ⟨0, 0, 16⟩ =
      ({ hazard := SyncHazard.NONE, tag := 0 }, ⟨[(5, {})]⟩) :=
  detectHazard_absent_resource ⟨[(5, {})]⟩ SYNC_TRANSFER_TRANSFER_READ 7 ⟨0, 0, 16⟩ (by rfl)

/-! Write-class hazard detection order (claim C1) -/

/-- The write-after-read scan is the first read record, in stored
order, that constitutes a read hazard. -/
theorem scanReadsForWAR_eq_find (usage_stage : Nat) (l : List ReadState) :
    scanReadsForWAR usage_stage l =
      (match l.find? (fun read => IsReadHazard usage_stage read) with
       | some read => { hazard := SyncHazard.WRITE_AFTER_READ, tag := read.tag }
       | none => {}) := by
  induction l with
  | nil => rfl
  | cons read rest ih =>
    by_cases h : IsReadHazard usage_stage read
    · simp [scanReadsForWAR, List.find?_cons, h]
    · simp [scanReadsForWAR, List.find?_cons, h, ih]

/-- C1: for a write-class usage, DetectHazard checks write-after-write
before the read scan: when a prior write exists and the usage is not
covered by the granted write scope it reports WRITE_AFTER_WRITE with
the stored write tag; only otherwise does it scan the read records in
stored order and report WRITE_AFTER_READ with the tag of the first
record constituting a hazard; the single returned HazardResult means at
most one hazard is reported per query. -/
theorem detectHazard_write_class (s : ResourceAccessState)
    (u : SyncStageAccessIndex) (h : IsRead u = false) :
    s.DetectHazard u =
      (if s.last_write ≠ 0 ∧ s.IsWriteHazard (FlagBit u) = true then
        { hazard := SyncHazard.WRITE_AFTER_WRITE, tag := s.write_tag }
      else
        match s.last_reads.find? (fun read => IsReadHazard (PipelineStageBit u) read) with
        | some read => { hazard := SyncHazard.WRITE_AFTER_READ, tag := read.tag }
        | none => { hazard := SyncHazard.NONE, tag := 0 }) := by
  unfold ResourceAccessState.DetectHazard
  rw [h]
  simp only [Bool.false_and, Bool.false_eq_true, if_false]
  rw [scanReadsForWAR_eq_find]
  by_cases hw : s.last_write ≠ 0 ∧ s.IsWriteHazard (FlagBit u) = true
  · have hb : (s.last_write != 0 && s.IsWriteHazard (FlagBit u)) = true := by
      simp [bne_iff_ne, hw.1, hw.2]
    simp [hb, hw]
  · have hb : (s.last_write != 0 && s.IsWriteHazard (FlagBit u)) = false := by
      by_cases h1 : s.last_write = 0
      · simp [h1]
      · have h2 : s.IsWriteHazard (FlagBit u) = false := by
          cases hcase : s.IsWriteHazard (FlagBit u)
          · rfl
          · exact absurd ⟨h1, hcase⟩ hw
        simp [h2]
    simp [hb, hw]

/-- Example state with an uncovered prior write and one read record,
used by closed witnesses. -/
def exWriteState : ResourceAccessState :=
  { last_reads := [{ stage := 2 ^ 3, barriers := 0, tag := 4 }],
    last_read_stages := 2 ^ 3, write_barriers := 0, write_tag := 7,
    last_write := 2 }

/-- Closed witness for detectHazard_write_class: a transfer write
against a state holding an uncovered prior write reports the
write-after-write hazard with the stored write tag. -/
theorem detectHazard_write_class_witness :
    IsRead SYNC_TRANSFER_TRANSFER_WRITE = false ∧
    exWriteState.DetectHazard SYNC_TRANSFER_TRANSFER_WRITE =
      (if exWriteState.last_write ≠ 0 ∧
          exWriteState.IsWriteHazard (FlagBit SYNC_TRANSFER_TRANSFER_WRITE) = true then
        { hazard := SyncHazard.WRITE_AFTER_WRITE, tag := exWriteState.write_tag }
      else
        match exWriteState.last_reads.find?
            (fun read => IsReadHazard (PipelineStageBit SYNC_TRANSFER_TRANSFER_WRITE) read) with
        | some read => { hazard := SyncHazard.WRITE_AFTER_READ, tag := read.tag }
        | none => { hazard := SyncHazard.NONE, tag := 0 }) ∧
    exWriteState.DetectHazard SYNC_TRANSFER_TRANSFER_WRITE =
      { hazard := SyncHazard.WRITE_AFTER_WRITE, tag := 7 } :=
  ⟨rfl, detectHazard_write_class exWriteState SYNC_TRANSFER_TRANSFER_WRITE rfl, by decide⟩


/-! Branch characterizations of Update -/

/-- A write-class Update clears the read records and the write barrier
scope and records the write bit and tag. -/
theorem update_write_eq (s : ResourceAccessState) (u : SyncStageAccessIndex)
    (t : Nat) (hw : IsRead u = false) :
    s.Update u t =
      { last_reads := [], last_read_stages := 0, write_barriers := 0,
        write_tag := t, last_write := FlagBit u } := by
  simp [ResourceAccessState.Update, hw]

/-- A read-class Update whose stage meets last_read_stages refreshes
the matching record in place. -/
theorem update_read_inplace (s : ResourceAccessState) (u : SyncStageAccessIndex)
    (t : Nat) (hr : IsRead u = true)
    (hm : (PipelineStageBit u &&& s.last_read_stages != 0) = true) :
    s.Update u t =
      { s with last_reads := updateReadAtStage (PipelineStageBit u) t s.last_reads } := by
  simp [ResourceAccessState.Update, hr, hm]

/-- A read-class Update whose stage misses last_read_stages appends a
fresh record and extends the stage mask. -/
theorem update_read_append (s : ResourceAccessState) (u : SyncStageAccessIndex)
    (t : Nat) (hr : IsRead u = true)
    (hm : (PipelineStageBit u &&& s.last_read_stages != 0) = false) :
    s.Update u t =
      { s with
          last_reads := s.last_reads ++
            [{ stage := PipelineStageBit u, barriers := 0, tag := t }],
          last_read_stages := s.last_read_stages ||| PipelineStageBit u } := by
  simp [ResourceAccessState.Update, hr, hm]

/-! Write, covering barrier, covered read (claim C3) -/

/-- C3: starting from the fresh state, record a write with tag 1, then
apply a memory barrier whose source scope covers the written access bit
and whose destination scope covers B; a read-class usage whose required
scope is contained in B then reports no hazard. -/
theorem write_barrier_covered_read_none (uw ur : SyncStageAccessIndex)
    (B src_scope dst_scope : Nat)
    (hw : IsRead uw = false) (hr : IsRead ur = true)
    (hAne : FlagBit uw ≠ 0) (hAsrc : FlagBit uw &&& src_scope = FlagBit uw)
    (hBdst : B &&& dst_scope = B) (hrB : FlagBit ur &&& B = FlagBit ur)
    (hdst : dst_scope < 2 ^ 64) :
    ((({} : ResourceAccessState).Update uw 1).ApplyMemoryBarrier
        src_scope dst_scope).DetectHazard ur =
      { hazard := SyncHazard.NONE, tag := 0 } := by
  have hfire : src_scope &&& FlagBit uw ≠ 0 := by
    rw [Nat.and_comm, hAsrc]
    exact hAne
  have h12 : (({} : ResourceAccessState).Update uw 1).ApplyMemoryBarrier
      src_scope dst_scope =
      { last_reads := [], last_read_stages := 0, write_barriers := dst_scope,
        write_tag := 1, last_write := FlagBit uw } := by
    rw [update_write_eq _ uw 1 hw]
    simp [ResourceAccessState.ApplyMemoryBarrier, hfire]
  rw [h12]
  have hsub : FlagBit ur &&& dst_scope = FlagBit ur := land_subset_trans hrB hBdst
  have hcompl : FlagBit ur &&& ((2 ^ 64 - 1) ^^^ dst_scope) = 0 :=
    land_compl_of_subset hsub hdst
  have hcompl2 : FlagBit ur &&& (SYNC_FLAGS_FULL ^^^ dst_scope) = 0 := by
    show FlagBit ur &&& ((2 ^ 64 - 1) ^^^ dst_scope) = 0
    exact hcompl
  have hwh : ResourceAccessState.IsWriteHazard
      { last_reads := [], last_read_stages := 0, write_barriers := dst_scope,
        write_tag := 1, last_write := FlagBit uw } (FlagBit ur) = false := by
    unfold ResourceAccessState.IsWriteHazard
    show (FlagBit ur &&& (SYNC_FLAGS_FULL ^^^ dst_scope) != 0) = false
    rw [hcompl2]
    rfl
  simp [ResourceAccessState.DetectHazard, hr, hwh, scanReadsForWAR]

/-- Closed witness for write_barrier_covered_read_none: write access
bit 2 covered by source scope 2, destination scope 1 covering B = 1,
read with required bit 1. -/
theorem write_barrier_covered_read_none_witness :
    IsRead SYNC_TRANSFER_TRANSFER_WRITE = false ∧
    IsRead SYNC_TRANSFER_TRANSFER_READ = true ∧
    FlagBit SYNC_TRANSFER_TRANSFER_WRITE ≠ 0 ∧
    FlagBit SYNC_TRANSFER_TRANSFER_WRITE &&& 2 = FlagBit SYNC_TRANSFER_TRANSFER_WRITE ∧
    (1 : Nat) &&& 1 = 1 ∧
    FlagBit SYNC_TRANSFER_TRANSFER_READ &&& 1 = FlagBit SYNC_TRANSFER_TRANSFER_READ ∧
    (1 : Nat) < 2 ^ 64 ∧
    ((({} : ResourceAccessState).Update SYNC_TRANSFER_TRANSFER_WRITE 1).ApplyMemoryBarrier
        2 1).DetectHazard SYNC_TRANSFER_TRANSFER_READ =
      { hazard := SyncHazard.NONE, tag := 0 } :=
  ⟨rfl, rfl, by decide, by decide, by decide, by decide, by decide,
   write_barrier_covered_read_none SYNC_TRANSFER_TRANSFER_WRITE
     SYNC_TRANSFER_TRANSFER_READ 1 2 1 rfl rfl (by decide) (by decide)
     (by decide) (by decide) (by decide)⟩

/-! readStagesMask invariant (claim C2) -/

/-- Union of the stage bits of a list of read records. -/
def unionReadStages : List ReadState → Nat
  | [] => 0
  | read :: rest => read.stage ||| unionReadStages rest

/-- The invariant of the spec: last_read_stages is exactly the union of
the stages of the live read records. -/
def readStagesConsistent (s : ResourceAccessState) : Prop :=
  s.last_read_stages = unionReadStages s.last_reads

theorem unionReadStages_append (l1 l2 : List ReadState) :
    unionReadStages (l1 ++ l2) = unionReadStages l1 ||| unionReadStages l2 := by
  induction l1 with
  | nil => simp [unionReadStages]
  | cons r rest ih => simp [unionReadStages, ih, Nat.or_assoc]

theorem unionReadStages_updateReadAtStage (st t : Nat) (l : List ReadState) :
    unionReadStages (updateReadAtStage st t l) = unionReadStages l := by
  induction l with
  | nil => rfl
  | cons r rest ih =>
    by_cases hc : (r.stage == st)
    · simp [updateReadAtStage, hc, unionReadStages]
    · simp [updateReadAtStage, hc, unionReadStages, ih]

theorem unionReadStages_map_preserve (f : ReadState → ReadState)
    (hf : ∀ r, (f r).stage = r.stage) (l : List ReadState) :
    unionReadStages (l.map f) = unionReadStages l := by
  induction l with
  | nil => rfl
  | cons r rest ih => simp [unionReadStages, ih, hf]

/-- C2: the invariant that last_read_stages equals the union of the
stage bits of the live read records is preserved by Update (reads and
writes), ApplyExecutionBarrier and ApplyMemoryBarrier (DetectHazard is
a pure query and returns no state); moreover a write-class Update
resets the read records to the empty list. -/
theorem readStagesMask_invariant (s : ResourceAccessState)
    (u : SyncStageAccessIndex)
    (tagv srcStageMask dstStageMask src_scope dst_scope : Nat)
    (h : readStagesConsistent s) :
    readStagesConsistent (s.Update u tagv) ∧
    readStagesConsistent (s.ApplyExecutionBarrier srcStageMask dstStageMask) ∧
    readStagesConsistent (s.ApplyMemoryBarrier src_scope dst_scope) ∧
    (IsRead u = false → (s.Update u tagv).last_reads = []) := by
  unfold readStagesConsistent at h
  refine ⟨?_, ?_, ?_, ?_⟩
  · by_cases hr : IsRead u
    · by_cases hmb : (PipelineStageBit u &&& s.last_read_stages != 0)
      · unfold readStagesConsistent
        rw [update_read_inplace s u tagv hr hmb]
        show s.last_read_stages =
          unionReadStages (updateReadAtStage (PipelineStageBit u) tagv s.last_reads)
        rw [unionReadStages_updateReadAtStage]
        exact h
      · have hmf : (PipelineStageBit u &&& s.last_read_stages != 0) = false := by
          simpa using hmb
        unfold readStagesConsistent
        rw [update_read_append s u tagv hr hmf]
        show s.last_read_stages ||| PipelineStageBit u =
          unionReadStages (s.last_reads ++
            [{ stage := PipelineStageBit u, barriers := 0, tag := tagv }])
        rw [unionReadStages_append, h]
        simp [unionReadStages]
    · have hrf : IsRead u = false := by simpa using hr
      unfold readStagesConsistent
      rw [update_write_eq s u tagv hrf]
      rfl
  · have hf : ∀ access : ReadState,
        ((if srcStageMask &&& (access.stage ||| access.barriers) != 0 then
            { access with barriers := access.barriers ||| dstStageMask }
          else access) : ReadState).stage = access.stage := by
      intro access
      by_cases hc : (srcStageMask &&& (access.stage ||| access.barriers) != 0) <;> simp [hc]
    have hu := unionReadStages_map_preserve
      (fun access =>
        if srcStageMask &&& (access.stage ||| access.barriers) != 0 then
          { access with barriers := access.barriers ||| dstStageMask }
        else access) hf s.last_reads
    exact h.trans hu.symm
  · unfold readStagesConsistent ResourceAccessState.ApplyMemoryBarrier
    by_cases hc : (src_scope &&& (s.last_write ||| s.write_barriers) != 0) <;> simp [hc, h]
  · intro hwu
    simp [ResourceAccessState.Update, hwu]

/-- Closed witness for readStagesMask_invariant: a consistent state
with one read record, updated with a transfer read. -/
theorem readStagesMask_invariant_witness :
    readStagesConsistent
        { last_reads := [{ stage := 2 ^ 3, barriers := 0, tag := 4 }],
          last_read_stages := 2 ^ 3, write_barriers := 0, write_tag := 7,
          last_write := 2 } ∧
    readStagesConsistent
        (({ last_reads := [{ stage := 2 ^ 3, barriers := 0, tag := 4 }],
            last_read_stages := 2 ^ 3, write_barriers := 0, write_tag := 7,
            last_write := 2 } : ResourceAccessState).Update
          SYNC_TRANSFER_TRANSFER_READ 9) :=
  ⟨by unfold readStagesConsistent unionReadStages unionReadStages; simp,
   (readStagesMask_invariant _ SYNC_TRANSFER_TRANSFER_READ 9 1 2 4 8
     (by unfold readStagesConsistent unionReadStages unionReadStages; simp)).1⟩

/-! Execution-barrier chaining (claim C6) -/

/-- Mapping a function that fixes every member of a list is the
identity on that list. -/
theorem map_eq_self_of_forall {α : Type} (f : α → α) (l : List α)
    (h : ∀ a ∈ l, f a = a) : l.map f = l := by
  induction l with
  | nil => rfl
  | cons a rest ih =>
    rw [List.map_cons, h a (List.mem_cons_self a rest),
      ih (fun b hb => h b (List.mem_cons_of_mem a hb))]

/-- C6: ApplyExecutionBarrier keeps the number of read records; record
i has dstStageMask ORed into its granted scope exactly when
srcStageMask intersects the union of its stage bit and its granted
scope, and is untouched otherwise; consequently a srcStageMask disjoint
from the stage and the granted scope of every record leaves the whole
state unchanged. -/
theorem applyExecutionBarrier_spec (s : ResourceAccessState)
    (srcStageMask dstStageMask : Nat) :
    (s.ApplyExecutionBarrier srcStageMask dstStageMask).last_reads.length =
      s.last_reads.length ∧
    (∀ i : Nat, (s.ApplyExecutionBarrier srcStageMask dstStageMask).last_reads[i]? =
      (s.last_reads[i]?).map fun access : ReadState =>
        if srcStageMask &&& (access.stage ||| access.barriers) != 0 then
          { access with barriers := access.barriers ||| dstStageMask }
        else access) ∧
    ((∀ access ∈ s.last_reads, srcStageMask &&& (access.stage ||| access.barriers) = 0) →
      s.ApplyExecutionBarrier srcStageMask dstStageMask = s) := by
  refine ⟨?_, ?_, ?_⟩
  · simp [ResourceAccessState.ApplyExecutionBarrier]
  · intro i
    simp [ResourceAccessState.ApplyExecutionBarrier]
  · intro hall
    have hmap : s.last_reads.map (fun access : ReadState =>
        if srcStageMask &&& (access.stage ||| access.barriers) != 0 then
          { access with barriers := access.barriers ||| dstStageMask }
        else access) = s.last_reads := by
      apply map_eq_self_of_forall
      intro access ha
      have hz : (srcStageMask &&& (access.stage ||| access.barriers) != 0) = false := by
        rw [hall access ha]
        rfl
      simp [hz]
    unfold ResourceAccessState.ApplyExecutionBarrier
    rw [hmap]

/-- Example state with one read record at stage 2 with granted scope 4,
used by closed witnesses. -/
def exExecState : ResourceAccessState :=
  { last_reads := [{ stage := 2, barriers := 4, tag := 3 }],
    last_read_stages := 2, write_barriers := 0, write_tag := 1,
    last_write := 2 }

/-- Closed witness for applyExecutionBarrier_spec: source mask 8 is
disjoint from stage 2 and granted scope 4, so the state is unchanged. -/
theorem applyExecutionBarrier_spec_witness :
    exExecState.ApplyExecutionBarrier 8 16 = exExecState :=
  (applyExecutionBarrier_spec exExecState 8 16).2.2 (by decide)

/-! Scope calculator refinement (claim C8) -/

/-- The naive scan yields zero when the flag mask misses every key. -/
theorem accessScopeNaive_zero (flag_mask : Nat) (m : List (Nat × Nat))
    (h : ∀ kv ∈ m, flag_mask &&& kv.1 = 0) :
    AccessScopeNaive flag_mask m = 0 := by
  induction m with
  | nil => rfl
  | cons kv rest ih =>
    have h1 := h kv (List.mem_cons_self _ _)
    have h2 := ih (fun kv2 hm => h kv2 (List.mem_cons_of_mem _ hm))
    simp [AccessScopeNaive, h1, h2]

/-- C8: for a lookup table whose keys are distinct single-bit values in
strictly ascending order, the early-break scan of the source computes
the same StageAccessFlags union as the naive full scan with the same
membership-test-and-union logic. -/
theorem accessScopeImpl_eq_naive (flag_mask : Nat) (m : List (Nat × Nat))
    (hasc : m.Pairwise (fun a b => a.1 < b.1))
    (hbits : ∀ kv ∈ m, ∃ j, kv.1 = 2 ^ j) :
    AccessScopeImpl flag_mask m = AccessScopeNaive flag_mask m := by
  induction m with
  | nil => rfl
  | cons kv rest ih =>
    rw [List.pairwise_cons] at hasc
    by_cases hlt : flag_mask < kv.1
    · obtain ⟨j, hj⟩ := hbits kv (List.mem_cons_self _ _)
      have hhead : flag_mask &&& kv.1 = 0 := by
        rw [hj] at hlt ⊢
        exact land_two_pow_of_lt hlt
      have hrest : ∀ kv2 ∈ rest, flag_mask &&& kv2.1 = 0 := by
        intro kv2 h2
        obtain ⟨j2, hj2⟩ := hbits kv2 (List.mem_cons_of_mem _ h2)
        have hk : flag_mask < kv2.1 := lt_trans hlt (hasc.1 kv2 h2)
        rw [hj2] at hk ⊢
        exact land_two_pow_of_lt hk
      simp [AccessScopeImpl, AccessScopeNaive, hlt, hhead,
        accessScopeNaive_zero flag_mask rest hrest]
    · have ih2 := ih hasc.2 (fun kv2 h2 => hbits kv2 (List.mem_cons_of_mem _ h2))
      simp [AccessScopeImpl, AccessScopeNaive, hlt, ih2]

/-- Closed witness for accessScopeImpl_eq_naive on the two-entry table
mapping bit 1 to scope 3 and bit 2 to scope 12, with flag mask 5. -/
theorem accessScopeImpl_eq_naive_witness :
    AccessScopeImpl 5 [(1, 3), (2, 12)] = AccessScopeNaive 5 [(1, 3), (2, 12)] :=
  accessScopeImpl_eq_naive 5 [(1, 3), (2, 12)] (by decide)
    (by
      intro kv h
      simp only [List.mem_cons, List.not_mem_nil, or_false] at h
      rcases h with rfl | rfl
      · exact ⟨0, rfl⟩
      · exact ⟨1, rfl⟩)

/-! Copy-command validation (claim C5) -/

/-- The validator-level hazard query hands back the tracker unchanged
(const access). -/
theorem syncDetectHazard_snd (t : ResourceAccessTracker)
    (u : SyncStageAccessIndex) (b : Nat) (r : VkBufferCopy) :
    (SyncValidator.DetectHazard t u b r).2 = t := by
  unfold SyncValidator.DetectHazard
  cases t.Get b <;> rfl

/-- The whole-resource engine ignores the region argument of the
hazard query. -/
theorem syncDetectHazard_region_irrel (t : ResourceAccessTracker)
    (u : SyncStageAccessIndex) (b : Nat) (r r2 : VkBufferCopy) :
    SyncValidator.DetectHazard t u b r = SyncValidator.DetectHazard t u b r2 := rfl

/-- When neither the source read check nor the destination write check
reports a hazard, the region loop scans every region and returns false
with no reports. -/
theorem validateCopyRegions_clean (t : ResourceAccessTracker) (src dst : Nat)
    (regions : List VkBufferCopy) (idx : Nat)
    (hs : ∀ r : VkBufferCopy,
      (SyncValidator.DetectHazard t SYNC_TRANSFER_TRANSFER_READ src r).1.hazard =
        SyncHazard.NONE)
    (hd : ∀ r : VkBufferCopy,
      (SyncValidator.DetectHazard t SYNC_TRANSFER_TRANSFER_WRITE dst r).1.hazard =
        SyncHazard.NONE) :
    validateCopyRegions t src dst idx regions = (false, []) := by
  induction regions generalizing idx with
  | nil => rfl
  | cons r rest ih =>
    have h1 : ((SyncValidator.DetectHazard t SYNC_TRANSFER_TRANSFER_READ src r).1.hazard
        != SyncHazard.NONE) = false := by
      rw [hs r]
      rfl
    have h2 : ((SyncValidator.DetectHazard t SYNC_TRANSFER_TRANSFER_WRITE dst r).1.hazard
        != SyncHazard.NONE) = false := by
      rw [hd r]
      rfl
    simp only [validateCopyRegions, syncDetectHazard_snd, h1, h2, Bool.false_eq_true,
      if_false]
    exact ih (idx + 1)

/-- Characterization of the copy validation call: no tracker or no
regions yields false with no reports; otherwise the source buffer is
checked first and reported alone on a hazard, the destination buffer is
checked and reported alone only when the source check is clean, and a
fully clean first region makes the whole call clean (the loop never
reports a later region, and the return is false). -/
theorem preCallValidateCmdCopyBuffer_eq (v : SyncValidator) (cb src dst : Nat)
    (regions : List VkBufferCopy) :
    v.PreCallValidateCmdCopyBuffer cb src dst regions =
      (match v.GetAccessTracker cb with
       | none => (false, [])
       | some tracker =>
         match regions with
         | [] => (false, [])
         | r :: _ =>
           if h : (SyncValidator.DetectHazard tracker SYNC_TRANSFER_TRANSFER_READ
               src r).1.hazard ≠ SyncHazard.NONE then
             (true,
              [{ buffer := src,
                 vuid := string_SyncHazardVUID (SyncValidator.DetectHazard tracker
                   SYNC_TRANSFER_TRANSFER_READ src r).1.hazard,
                 hazardName := string_SyncHazard (SyncValidator.DetectHazard tracker
                   SYNC_TRANSFER_TRANSFER_READ src r).1.hazard,
                 region := 0 }])
           else if h2 : (SyncValidator.DetectHazard tracker SYNC_TRANSFER_TRANSFER_WRITE
               dst r).1.hazard ≠ SyncHazard.NONE then
             (true,
              [{ buffer := dst,
                 vuid := string_SyncHazardVUID (SyncValidator.DetectHazard tracker
                   SYNC_TRANSFER_TRANSFER_WRITE dst r).1.hazard,
                 hazardName := string_SyncHazard (SyncValidator.DetectHazard tracker
                   SYNC_TRANSFER_TRANSFER_WRITE dst r).1.hazard,
                 region := 0 }])
           else (false, [])) := by
  unfold SyncValidator.PreCallValidateCmdCopyBuffer
  cases hg : v.GetAccessTracker cb with
  | none => rfl
  | some t =>
    cases regions with
    | nil => rfl
    | cons r rest =>
      by_cases hs : (SyncValidator.DetectHazard t SYNC_TRANSFER_TRANSFER_READ
          src r).1.hazard = SyncHazard.NONE
      · have h1 : ((SyncValidator.DetectHazard t SYNC_TRANSFER_TRANSFER_READ
            src r).1.hazard != SyncHazard.NONE) = false := by
          rw [hs]
          rfl
        by_cases hd : (SyncValidator.DetectHazard t SYNC_TRANSFER_TRANSFER_WRITE
            dst r).1.hazard = SyncHazard.NONE
        · have hs2 : ∀ r2 : VkBufferCopy,
              (SyncValidator.DetectHazard t SYNC_TRANSFER_TRANSFER_READ
                src r2).1.hazard = SyncHazard.NONE := fun r2 => by
            rw [syncDetectHazard_region_irrel t _ src r2 r]
            exact hs
          have hd2 : ∀ r2 : VkBufferCopy,
              (SyncValidator.DetectHazard t SYNC_TRANSFER_TRANSFER_WRITE
                dst r2).1.hazard = SyncHazard.NONE := fun r2 => by
            rw [syncDetectHazard_region_irrel t _ dst r2 r]
            exact hd
          show validateCopyRegions t src dst 0 (r :: rest) = _
          rw [validateCopyRegions_clean t src dst (r :: rest) 0 hs2 hd2]
          simp [hs, hd]
        · have h2 : ((SyncValidator.DetectHazard t SYNC_TRANSFER_TRANSFER_WRITE
              dst r).1.hazard != SyncHazard.NONE) = true := by
            rw [bne_iff_ne]
            exact hd
          simp only [validateCopyRegions, syncDetectHazard_snd, h1, h2,
            Bool.false_eq_true, if_false, if_true]
          simp [hs, hd]
      · have h1 : ((SyncValidator.DetectHazard t SYNC_TRANSFER_TRANSFER_READ
            src r).1.hazard != SyncHazard.NONE) = true := by
          rw [bne_iff_ne]
          exact hs
        simp only [validateCopyRegions, h1, if_true]
        simp [hs]

/-- C5: regions are processed in order with the source read check
before the destination write check inside each region; the destination
is checked only when the source check found no hazard; at most one
report is emitted and no later region is checked once a hazard is
reported; and the call returns true exactly when a tracker exists and
some region has a source-read or destination-write hazard. -/
theorem validateCmdCopyBuffer_spec (v : SyncValidator) (cb src dst : Nat)
    (regions : List VkBufferCopy) :
    (v.PreCallValidateCmdCopyBuffer cb src dst regions =
      (match v.GetAccessTracker cb with
       | none => (false, [])
       | some tracker =>
         match regions with
         | [] => (false, [])
         | r :: _ =>
           if h : (SyncValidator.DetectHazard tracker SYNC_TRANSFER_TRANSFER_READ
               src r).1.hazard ≠ SyncHazard.NONE then
             (true,
              [{ buffer := src,
                 vuid := string_SyncHazardVUID (SyncValidator.DetectHazard tracker
                   SYNC_TRANSFER_TRANSFER_READ src r).1.hazard,
                 hazardName := string_SyncHazard (SyncValidator.DetectHazard tracker
                   SYNC_TRANSFER_TRANSFER_READ src r).1.hazard,
                 region := 0 }])
           else if h2 : (SyncValidator.DetectHazard tracker SYNC_TRANSFER_TRANSFER_WRITE
               dst r).1.hazard ≠ SyncHazard.NONE then
             (true,
              [{ buffer := dst,
                 vuid := string_SyncHazardVUID (SyncValidator.DetectHazard tracker
                   SYNC_TRANSFER_TRANSFER_WRITE dst r).1.hazard,
                 hazardName := string_SyncHazard (SyncValidator.DetectHazard tracker
                   SYNC_TRANSFER_TRANSFER_WRITE dst r).1.hazard,
                 region := 0 }])
           else (false, []))) ∧
    ((v.PreCallValidateCmdCopyBuffer cb src dst regions).1 = true ↔
      ∃ tracker, v.GetAccessTracker cb = some tracker ∧ ∃ r ∈ regions,
        ((SyncValidator.DetectHazard tracker SYNC_TRANSFER_TRANSFER_READ
            src r).1.hazard ≠ SyncHazard.NONE ∨
         (SyncValidator.DetectHazard tracker SYNC_TRANSFER_TRANSFER_WRITE
            dst r).1.hazard ≠ SyncHazard.NONE)) := by
  refine ⟨preCallValidateCmdCopyBuffer_eq v cb src dst regions, ?_⟩
  unfold SyncValidator.PreCallValidateCmdCopyBuffer
  cases hg : v.GetAccessTracker cb with
  | none =>
    simp
  | some t =>
    show (validateCopyRegions t src dst 0 regions).1 = true ↔ _
    cases regions with
    | nil => simp [validateCopyRegions]
    | cons r rest =>
      by_cases hs : (SyncValidator.DetectHazard t SYNC_TRANSFER_TRANSFER_READ
          src r).1.hazard ≠ SyncHazard.NONE
      · have h1 : ((SyncValidator.DetectHazard t SYNC_TRANSFER_TRANSFER_READ
            src r).1.hazard != SyncHazard.NONE) = true := by
          rw [bne_iff_ne]
          exact hs
        simp only [validateCopyRegions, h1, if_true]
        constructor
        · intro _
          exact ⟨t, rfl, r, List.mem_cons_self r rest, Or.inl hs⟩
        · intro _
          trivial
      · have hsv : (SyncValidator.DetectHazard t SYNC_TRANSFER_TRANSFER_READ
            src r).1.hazard = SyncHazard.NONE := not_not.mp (by simpa using hs)
        have h1 : ((SyncValidator.DetectHazard t SYNC_TRANSFER_TRANSFER_READ
            src r).1.hazard != SyncHazard.NONE) = false := by
          rw [hsv]
          rfl
        by_cases hd : (SyncValidator.DetectHazard t SYNC_TRANSFER_TRANSFER_WRITE
            dst r).1.hazard ≠ SyncHazard.NONE
        · have h2 : ((SyncValidator.DetectHazard t SYNC_TRANSFER_TRANSFER_WRITE
              dst r).1.hazard != SyncHazard.NONE) = true := by
            rw [bne_iff_ne]
            exact hd
          simp only [validateCopyRegions, syncDetectHazard_snd, h1, h2,
            Bool.false_eq_true, if_false, if_true]
          constructor
          · intro _
            exact ⟨t, rfl, r, List.mem_cons_self r rest, Or.inr hd⟩
          · intro _
            trivial
        · have hdv : (SyncValidator.DetectHazard t SYNC_TRANSFER_TRANSFER_WRITE
              dst r).1.hazard = SyncHazard.NONE := not_not.mp (by simpa using hd)
          have hs2 : ∀ r2 : VkBufferCopy,
              (SyncValidator.DetectHazard t SYNC_TRANSFER_TRANSFER_READ
                src r2).1.hazard = SyncHazard.NONE := fun r2 => by
            rw [syncDetectHazard_region_irrel t _ src r2 r]
            exact hsv
          have hd2 : ∀ r2 : VkBufferCopy,
              (SyncValidator.DetectHazard t SYNC_TRANSFER_TRANSFER_WRITE
                dst r2).1.hazard = SyncHazard.NONE := fun r2 => by
            rw [syncDetectHazard_region_irrel t _ dst r2 r]
            exact hdv
          rw [validateCopyRegions_clean t src dst (r :: rest) 0 hs2 hd2]
          constructor
          · intro hfalse
            exact absurd hfalse (by simp)
          · rintro ⟨t2, ht2, r2, hr2, hcase⟩
            injection ht2 with ht2
            subst ht2
            rcases hcase with hcase | hcase
            · exact absurd (hs2 r2) hcase
            · exact absurd (hd2 r2) hcase

/-! Buffer-barrier frame effects (claim C10) -/

/-- Write-only extension between two access states: the read records,
the read stage mask, the last write and its tag are unchanged, and the
granted write scope can only grow (the old scope is contained in the
new one). -/
def WriteOnlyExtends (s s2 : ResourceAccessState) : Prop :=
  s2.last_reads = s.last_reads ∧
  s2.last_read_stages = s.last_read_stages ∧
  s2.last_write = s.last_write ∧
  s2.write_tag = s.write_tag ∧
  s.write_barriers &&& s2.write_barriers = s.write_barriers

theorem writeOnlyExtends_refl (s : ResourceAccessState) : WriteOnlyExtends s s :=
  ⟨rfl, rfl, rfl, rfl, Nat.and_self _⟩

theorem writeOnlyExtends_trans {a b c : ResourceAccessState}
    (h1 : WriteOnlyExtends a b) (h2 : WriteOnlyExtends b c) : WriteOnlyExtends a c :=
  ⟨h2.1.trans h1.1, h2.2.1.trans h1.2.1, h2.2.2.1.trans h1.2.2.1,
   h2.2.2.2.1.trans h1.2.2.2.1,
   land_subset_trans h1.2.2.2.2 h2.2.2.2.2⟩

/-- ApplyMemoryBarrier touches only the write barrier scope, and only
by OR. -/
theorem applyMemoryBarrier_writeOnlyExtends (s : ResourceAccessState)
    (src_scope dst_scope : Nat) :
    WriteOnlyExtends s (s.ApplyMemoryBarrier src_scope dst_scope) := by
  unfold ResourceAccessState.ApplyMemoryBarrier
  by_cases hc : (src_scope &&& (s.last_write ||| s.write_barriers) != 0) = true
  · rw [if_pos hc]
    exact ⟨rfl, rfl, rfl, rfl, land_lor_absorb _ _⟩
  · rw [if_neg hc]
    exact writeOnlyExtends_refl s

/-- Entry i of applyAt: the key is unchanged, and the function is
applied exactly when the key names the target buffer. -/
theorem applyAt_getElem (t : ResourceAccessTracker) (buffer : Nat)
    (f : ResourceAccessState → ResourceAccessState) (i : Nat)
    (kv : Nat × ResourceAccessState) (h : t.map[i]? = some kv) :
    (t.applyAt buffer f).map[i]? =
      some (if kv.1 == buffer then (kv.1, f kv.2) else kv) := by
  unfold ResourceAccessTracker.applyAt
  simp only [List.getElem?_map, h]
  rfl

/-- Per-entry behaviour of ApplyBufferBarriers: the key is preserved,
the state is only write-extended, and an entry named by no barrier is
untouched. -/
theorem applyBufferBarriers_entry (accessTable : List (Nat × Nat))
    (t : ResourceAccessTracker) (ssc dsc : Nat)
    (barriers : List VkBufferMemoryBarrier) (i : Nat)
    (kv : Nat × ResourceAccessState) (h : t.map[i]? = some kv) :
    ∃ s2, (SyncValidator.ApplyBufferBarriers accessTable t ssc dsc barriers).map[i]? =
        some (kv.1, s2) ∧ WriteOnlyExtends kv.2 s2 ∧
        ((∀ b ∈ barriers, b.buffer ≠ kv.1) → s2 = kv.2) := by
  induction barriers generalizing t kv with
  | nil => exact ⟨kv.2, h, writeOnlyExtends_refl kv.2, fun _ => rfl⟩
  | cons b rest ih =>
    have hstep : SyncValidator.ApplyBufferBarriers accessTable t ssc dsc (b :: rest) =
        SyncValidator.ApplyBufferBarriers accessTable
          (t.applyAt b.buffer fun access_state =>
            access_state.ApplyMemoryBarrier
              (AccessScopeFromStageScope accessTable ssc b.srcAccessMask)
              (AccessScopeFromStageScope accessTable dsc b.dstAccessMask))
          ssc dsc rest := rfl
    rw [hstep]
    by_cases hk : (kv.1 == b.buffer) = true
    · have h1 : (t.applyAt b.buffer fun access_state =>
          access_state.ApplyMemoryBarrier
            (AccessScopeFromStageScope accessTable ssc b.srcAccessMask)
            (AccessScopeFromStageScope accessTable dsc b.dstAccessMask)).map[i]? =
          some (kv.1, kv.2.ApplyMemoryBarrier
            (AccessScopeFromStageScope accessTable ssc b.srcAccessMask)
            (AccessScopeFromStageScope accessTable dsc b.dstAccessMask)) := by
        rw [applyAt_getElem t b.buffer _ i kv h, if_pos hk]
      obtain ⟨s2, hmem, hext, huntouched⟩ := ih _ _ h1
      refine ⟨s2, hmem, writeOnlyExtends_trans
        (applyMemoryBarrier_writeOnlyExtends kv.2 _ _) hext, ?_⟩
      intro hall
      exact absurd (beq_iff_eq.mp hk).symm (hall b (List.mem_cons_self b rest))
    · have h1 : (t.applyAt b.buffer fun access_state =>
          access_state.ApplyMemoryBarrier
            (AccessScopeFromStageScope accessTable ssc b.srcAccessMask)
            (AccessScopeFromStageScope accessTable dsc b.dstAccessMask)).map[i]? =
          some kv := by
        rw [applyAt_getElem t b.buffer _ i kv h, if_neg hk]
      obtain ⟨s2, hmem, hext, huntouched⟩ := ih _ _ h1
      refine ⟨s2, hmem, hext, ?_⟩
      intro hall
      exact huntouched (fun b2 hb2 => hall b2 (List.mem_cons_of_mem b hb2))

/-- ApplyBufferBarriers never adds or removes tracker entries. -/
theorem applyBufferBarriers_length (accessTable : List (Nat × Nat))
    (t : ResourceAccessTracker) (ssc dsc : Nat)
    (barriers : List VkBufferMemoryBarrier) :
    (SyncValidator.ApplyBufferBarriers accessTable t ssc dsc barriers).map.length =
      t.map.length := by
  induction barriers generalizing t with
  | nil => rfl
  | cons b rest ih =>
    have hstep : SyncValidator.ApplyBufferBarriers accessTable t ssc dsc (b :: rest) =
        SyncValidator.ApplyBufferBarriers accessTable
          (t.applyAt b.buffer fun access_state =>
            access_state.ApplyMemoryBarrier
              (AccessScopeFromStageScope accessTable ssc b.srcAccessMask)
              (AccessScopeFromStageScope accessTable dsc b.dstAccessMask))
          ssc dsc rest := rfl
    rw [hstep, ih]
    simp [ResourceAccessTracker.applyAt]

/-- C10: ApplyBufferBarriers keeps the set of tracker entries fixed
(same length, same key at every position), leaves every read record,
the read stage mask, the last write and the write tag of every tracked
state unchanged and can only OR bits into the granted write scope; an
entry whose buffer is named by no barrier is entirely unchanged; and
ApplyGlobalBarriers applies the execution barrier to every tracked
state even when the memory-barrier list is empty. -/
theorem applyBufferBarriers_frame (accessTable : List (Nat × Nat))
    (t : ResourceAccessTracker) (ssc dsc : Nat)
    (barriers : List VkBufferMemoryBarrier)
    (srcStageMask dstStageMask gssc gdsc : Nat) :
    (SyncValidator.ApplyBufferBarriers accessTable t ssc dsc barriers).map.length =
      t.map.length ∧
    (∀ i : Nat, ∀ kv : Nat × ResourceAccessState, t.map[i]? = some kv →
      ∃ s2, (SyncValidator.ApplyBufferBarriers accessTable t ssc dsc
          barriers).map[i]? = some (kv.1, s2) ∧ WriteOnlyExtends kv.2 s2) ∧
    (∀ i : Nat, ∀ kv : Nat × ResourceAccessState, t.map[i]? = some kv →
      (∀ b ∈ barriers, b.buffer ≠ kv.1) →
      (SyncValidator.ApplyBufferBarriers accessTable t ssc dsc
          barriers).map[i]? = some kv) ∧
    (SyncValidator.ApplyGlobalBarriers accessTable t srcStageMask dstStageMask
        gssc gdsc []).map =
      t.map.map fun tracked =>
        (tracked.1, tracked.2.ApplyExecutionBarrier srcStageMask dstStageMask) := by
  refine ⟨applyBufferBarriers_length accessTable t ssc dsc barriers, ?_, ?_, rfl⟩
  · intro i kv h
    obtain ⟨s2, hmem, hext, _⟩ :=
      applyBufferBarriers_entry accessTable t ssc dsc barriers i kv h
    exact ⟨s2, hmem, hext⟩
  · intro i kv h hall
    obtain ⟨s2, hmem, hext, huntouched⟩ :=
      applyBufferBarriers_entry accessTable t ssc dsc barriers i kv h
    rw [hmem, huntouched hall]

/-- Closed witness for applyBufferBarriers_frame: a barrier naming
buffer 2 leaves the tracked entry for buffer 1 untouched. -/
theorem applyBufferBarriers_frame_witness :
    (SyncValidator.ApplyBufferBarriers [] ⟨[(1, {})]⟩ 3 5
        [{ srcAccessMask := 0, dstAccessMask := 0, buffer := 2 }]).map[0]? =
      some (1, ({} : ResourceAccessState)) :=
  (applyBufferBarriers_frame [] ⟨[(1, {})]⟩ 3 5
      [{ srcAccessMask := 0, dstAccessMask := 0, buffer := 2 }] 0 0 0 0).2.2.1
    0 (1, {}) rfl (by decide)

/-! Two reads at the same stage collapse (claim C7) -/

theorem unionReadStages_cons (r : ReadState) (rest : List ReadState) :
    unionReadStages (r :: rest) = r.stage ||| unionReadStages rest := rfl

/-- Inclusion in the right OR operand gives inclusion in the OR. -/
theorem land_lor_right_of_subset {a b c : Nat} (h : a &&& c = a) :
    a &&& (b ||| c) = a := by
  apply Nat.eq_of_testBit_eq
  intro i
  have hi := congrArg (fun x => x.testBit i) h
  simp only [Nat.testBit_and, Nat.testBit_or] at hi ⊢
  cases ha : a.testBit i with
  | false => simp
  | true =>
    rw [ha] at hi
    simp only [Bool.true_and] at hi
    simp [hi]

/-- The stage of a member record is contained in the stage union. -/
theorem stage_land_union {read : ReadState} {l : List ReadState} (h : read ∈ l) :
    read.stage &&& unionReadStages l = read.stage := by
  induction l with
  | nil => cases h
  | cons r rest ih =>
    rcases List.mem_cons.mp h with hh | hmem
    · rw [unionReadStages_cons, hh]
      exact land_lor_absorb _ _
    · rw [unionReadStages_cons]
      exact land_lor_right_of_subset (ih hmem)

/-- AND distributes over OR on naturals. -/
theorem land_lor_distrib_left (a b c : Nat) :
    a &&& (b ||| c) = (a &&& b) ||| (a &&& c) := by
  apply Nat.eq_of_testBit_eq
  intro i
  simp only [Nat.testBit_and, Nat.testBit_or]
  cases a.testBit i <;> cases b.testBit i <;> cases c.testBit i <;> rfl

/-- A single-bit stage meeting the stage union of a list of single-bit
records is the stage of some member. -/
theorem mem_stage_of_land_union {st : Nat} {l : List ReadState}
    (hbits : ∀ read ∈ l, ∃ j, read.stage = 2 ^ j) {j : Nat} (hj : st = 2 ^ j)
    (h : st &&& unionReadStages l ≠ 0) : ∃ read ∈ l, read.stage = st := by
  induction l with
  | nil =>
    exfalso
    apply h
    show st &&& 0 = 0
    exact Nat.and_zero st
  | cons r rest ih =>
    by_cases hh : st &&& r.stage = 0
    · have hrest : st &&& unionReadStages rest ≠ 0 := by
        intro hz
        apply h
        rw [unionReadStages_cons, land_lor_distrib_left, hh, hz]
        rfl
      obtain ⟨read, hmem, hstage⟩ :=
        ih (fun read hm => hbits read (List.mem_cons_of_mem r hm)) hrest
      exact ⟨read, List.mem_cons_of_mem r hmem, hstage⟩
    · obtain ⟨j2, hj2⟩ := hbits r (List.mem_cons_self r rest)
      have heq : st = r.stage := by
        rw [hj, hj2]
        rw [hj, hj2] at hh
        exact congrArg (fun n => 2 ^ n) (two_pow_land_ne_zero hh)
      exact ⟨r, List.mem_cons_self r rest, heq.symm⟩

/-- A member whose stage list is duplicate-free splits its list into a
left part, itself, and a right part, with no other record at its
stage. -/
theorem decomp_of_mem_stage {l : List ReadState} {st : Nat}
    (hnodup : (l.map ReadState.stage).Nodup)
    (read : ReadState) (hmem : read ∈ l) (hstage : read.stage = st) :
    ∃ l1 l2, l = l1 ++ read :: l2 ∧
      (∀ x ∈ l1, x.stage ≠ st) ∧ (∀ x ∈ l2, x.stage ≠ st) := by
  obtain ⟨l1, l2, rfl⟩ := List.append_of_mem hmem
  rw [List.map_append, List.map_cons] at hnodup
  have hparts := List.nodup_append.mp hnodup
  refine ⟨l1, l2, rfl, ?_, ?_⟩
  · intro x hx hxs
    apply hparts.2.2 (List.mem_map_of_mem ReadState.stage hx)
    rw [hxs, ← hstage]
    exact List.mem_cons_self _ _
  · intro x hx hxs
    apply (List.nodup_cons.mp hparts.2.1).1
    rw [hstage, ← hxs]
    exact List.mem_map_of_mem ReadState.stage hx

/-- Updating at a stage held by the middle record rewrites exactly that
record when no earlier record holds the stage. -/
theorem updateReadAtStage_decomp (st t : Nat) (l1 l2 : List ReadState)
    (mid : ReadState) (hmid : mid.stage = st)
    (hl1 : ∀ x ∈ l1, x.stage ≠ st) :
    updateReadAtStage st t (l1 ++ mid :: l2) =
      l1 ++ ({ mid with barriers := 0, tag := t }) :: l2 := by
  induction l1 with
  | nil =>
    show updateReadAtStage st t (mid :: l2) = _
    simp only [updateReadAtStage]
    rw [if_pos (beq_iff_eq.mpr hmid)]
    rfl
  | cons x l1 ih =>
    show updateReadAtStage st t (x :: (l1 ++ mid :: l2)) = _
    simp only [updateReadAtStage]
    rw [if_neg (fun hb => hl1 x (List.mem_cons_self x l1) (beq_iff_eq.mp hb)),
      ih (fun y hy => hl1 y (List.mem_cons_of_mem x hy))]
    rfl

/-- Filtering for the middle stage keeps exactly the middle record. -/
theorem filter_stage_decomp (st : Nat) (l1 l2 : List ReadState) (mid : ReadState)
    (hmid : mid.stage = st) (hl1 : ∀ x ∈ l1, x.stage ≠ st)
    (hl2 : ∀ x ∈ l2, x.stage ≠ st) :
    (l1 ++ mid :: l2).filter (fun read => read.stage == st) = [mid] := by
  rw [List.filter_append]
  have hf1 : l1.filter (fun read => read.stage == st) = [] := by
    rw [List.filter_eq_nil_iff]
    intro x hx
    simp [hl1 x hx]
  have hf2 : l2.filter (fun read => read.stage == st) = [] := by
    rw [List.filter_eq_nil_iff]
    intro x hx
    simp [hl2 x hx]
  rw [hf1]
  simp [List.filter_cons, hmid, hf2]

/-- After a read-class Update at a single-bit stage on a well-formed
state, the read list splits around a record carrying that stage with
cleared scope and the new tag, no other record holds the stage, and
the stage meets the updated stage mask. -/
theorem update_first_read_decomp (s : ResourceAccessState)
    (u1 : SyncStageAccessIndex) (t1 : Nat)
    (hcons : readStagesConsistent s)
    (hbits : ∀ read ∈ s.last_reads, ∃ j, read.stage = 2 ^ j)
    (hnodup : (s.last_reads.map ReadState.stage).Nodup)
    (h1 : IsRead u1 = true) (j : Nat) (hj : PipelineStageBit u1 = 2 ^ j) :
    ∃ l1 l2,
      (s.Update u1 t1).last_reads =
        l1 ++ ({ stage := PipelineStageBit u1, barriers := 0, tag := t1 } : ReadState) :: l2 ∧
      (∀ x ∈ l1, x.stage ≠ PipelineStageBit u1) ∧
      (∀ x ∈ l2, x.stage ≠ PipelineStageBit u1) ∧
      (PipelineStageBit u1 &&& (s.Update u1 t1).last_read_stages != 0) = true := by
  have hc2 : s.last_read_stages = unionReadStages s.last_reads := hcons
  have hstne : PipelineStageBit u1 ≠ 0 := by
    rw [hj]
    exact (Nat.two_pow_pos j).ne'
  have hc2 : s.last_read_stages = unionReadStages s.last_reads := hcons
  by_cases hm : (PipelineStageBit u1 &&& s.last_read_stages != 0) = true
  · have hne : PipelineStageBit u1 &&& unionReadStages s.last_reads ≠ 0 := by
      rw [← hc2]
      exact bne_iff_ne.mp hm
    obtain ⟨read, hmem, hstage⟩ := mem_stage_of_land_union hbits hj hne
    obtain ⟨l1, l2, hdec, hl1, hl2⟩ := decomp_of_mem_stage hnodup read hmem hstage
    refine ⟨l1, l2, ?_, hl1, hl2, ?_⟩
    · rw [update_read_inplace s u1 t1 h1 hm]
      show updateReadAtStage (PipelineStageBit u1) t1 s.last_reads = _
      rw [hdec, updateReadAtStage_decomp (PipelineStageBit u1) t1 l1 l2 read hstage hl1]
      have hmid : ({ read with barriers := 0, tag := t1 } : ReadState) =
          { stage := PipelineStageBit u1, barriers := 0, tag := t1 } := by
        rw [← hstage]
      rw [hmid]
    · rw [update_read_inplace s u1 t1 h1 hm]
      exact hm
  · have hmf : (PipelineStageBit u1 &&& s.last_read_stages != 0) = false := by
      simpa using hm
    have hz : PipelineStageBit u1 &&& unionReadStages s.last_reads = 0 := by
      rw [← hc2]
      by_contra hne0
      exact hm (bne_iff_ne.mpr hne0)
    refine ⟨s.last_reads, [], ?_, ?_, ?_, ?_⟩
    · rw [update_read_append s u1 t1 h1 hmf]
    · intro x hx hxs
      have hsub : x.stage &&& unionReadStages s.last_reads = x.stage := stage_land_union hx
      rw [hxs] at hsub
      exact hstne (hsub.symm.trans hz)
    · intro x hx
      cases hx
    · rw [update_read_append s u1 t1 h1 hmf]
      show (PipelineStageBit u1 &&&
        (s.last_read_stages ||| PipelineStageBit u1) != 0) = true
      rw [bne_iff_ne, land_lor_absorb_right]
      exact hstne

/-- C7: two read-class usages at the same single-bit pipeline stage
with no intervening write leave exactly one read record for that stage,
carrying the later tag and an empty granted barrier scope; the second
Update changes neither the record count nor readStagesMask. -/
theorem two_reads_same_stage_collapse (s : ResourceAccessState)
    (u1 u2 : SyncStageAccessIndex) (t1 t2 : Nat)
    (hcons : readStagesConsistent s)
    (hbits : ∀ read ∈ s.last_reads, ∃ j, read.stage = 2 ^ j)
    (hnodup : (s.last_reads.map ReadState.stage).Nodup)
    (h1 : IsRead u1 = true) (h2 : IsRead u2 = true)
    (hsame : PipelineStageBit u2 = PipelineStageBit u1)
    (hbit : ∃ j, PipelineStageBit u1 = 2 ^ j) :
    ((s.Update u1 t1).Update u2 t2).last_reads.length =
      (s.Update u1 t1).last_reads.length ∧
    ((s.Update u1 t1).Update u2 t2).last_read_stages =
      (s.Update u1 t1).last_read_stages ∧
    ((s.Update u1 t1).Update u2 t2).last_reads.filter
        (fun read => read.stage == PipelineStageBit u1) =
      [{ stage := PipelineStageBit u1, barriers := 0, tag := t2 }] := by
  obtain ⟨j, hj⟩ := hbit
  obtain ⟨l1, l2, hdec, hl1, hl2, hmask⟩ :=
    update_first_read_decomp s u1 t1 hcons hbits hnodup h1 j hj
  have hmask2 : (PipelineStageBit u2 &&&
      (s.Update u1 t1).last_read_stages != 0) = true := by
    rw [hsame]
    exact hmask
  have hupd2 := update_read_inplace (s.Update u1 t1) u2 t2 h2 hmask2
  have hupdlist : updateReadAtStage (PipelineStageBit u2) t2
      (s.Update u1 t1).last_reads =
      l1 ++ ({ stage := PipelineStageBit u1, barriers := 0, tag := t2 } : ReadState) :: l2 := by
    rw [hsame, hdec]
    exact updateReadAtStage_decomp (PipelineStageBit u1) t2 l1 l2
      { stage := PipelineStageBit u1, barriers := 0, tag := t1 } rfl hl1
  refine ⟨?_, ?_, ?_⟩
  · rw [hupd2]
    show (updateReadAtStage (PipelineStageBit u2) t2
      (s.Update u1 t1).last_reads).length = (s.Update u1 t1).last_reads.length
    rw [hupdlist, hdec]
    simp
  · rw [hupd2]
  · rw [hupd2]
    show (updateReadAtStage (PipelineStageBit u2) t2
        (s.Update u1 t1).last_reads).filter
        (fun read => read.stage == PipelineStageBit u1) = _
    rw [hupdlist]
    exact filter_stage_decomp (PipelineStageBit u1) l1 l2 _ rfl hl1 hl2

/-- Closed witness for two_reads_same_stage_collapse: two transfer
reads with tags 9 and 11 on a state with one prior read record at
stage bit 3. -/
theorem two_reads_same_stage_collapse_witness :
    ((exWriteState.Update SYNC_TRANSFER_TRANSFER_READ 9).Update
        SYNC_TRANSFER_TRANSFER_READ 11).last_reads.length =
      (exWriteState.Update SYNC_TRANSFER_TRANSFER_READ 9).last_reads.length ∧
    ((exWriteState.Update SYNC_TRANSFER_TRANSFER_READ 9).Update
        SYNC_TRANSFER_TRANSFER_READ 11).last_read_stages =
      (exWriteState.Update SYNC_TRANSFER_TRANSFER_READ 9).last_read_stages ∧
    ((exWriteState.Update SYNC_TRANSFER_TRANSFER_READ 9).Update
        SYNC_TRANSFER_TRANSFER_READ 11).last_reads.filter
        (fun read => read.stage == PipelineStageBit SYNC_TRANSFER_TRANSFER_READ) =
      [{ stage := PipelineStageBit SYNC_TRANSFER_TRANSFER_READ, barriers := 0,
         tag := 11 }] :=
  two_reads_same_stage_collapse exWriteState SYNC_TRANSFER_TRANSFER_READ
    SYNC_TRANSFER_TRANSFER_READ 9 11
    (by simp [readStagesConsistent, exWriteState, unionReadStages])
    (by
      intro read h
      rcases List.mem_singleton.mp h with rfl
      exact ⟨3, rfl⟩)
    (by decide) rfl rfl rfl ⟨12, rfl⟩
